import Mathlib

/-!
Shallow embedding of the dgit command slice: the diff dispatch, the log
parent walk, and the checkout family (Checkout, CheckoutCommit,
CheckoutFiles), together with spec-modelled versions of the engine pieces
those commands call and that are not part of the visible slice (ReadTree,
DiffIndex, DiffFiles, patch apply, reference updates, revision parsing).
Machine state is an explicit record threaded through every operation, so
that an operation that fails also reports the state it leaves behind.
-/

namespace DGit

abbrev Path := String
abbrev CommitID := Nat
abbrev Digest := Nat

/-- Association-list lookup, first binding wins (models a file-system map
such as the ref directory, the index, or the working tree). -/
def lookupAssoc {α β : Type} [DecidableEq α] : List (α × β) → α → Option β
  | [], _ => none
  | e :: t, k => if e.1 = k then some e.2 else lookupAssoc t k

/-- Association-list update: replace the binding for a key, or append one. -/
def setAssoc {α β : Type} [DecidableEq α] : List (α × β) → α → β → List (α × β)
  | [], k, v => [(k, v)]
  | e :: t, k, v => if e.1 = k then (k, v) :: t else e :: setAssoc t k v

/-- Association-list removal of every binding for a key. -/
def removeAssoc {α β : Type} [DecidableEq α] : List (α × β) → α → List (α × β)
  | [], _ => []
  | e :: t, k => if e.1 = k then removeAssoc t k else e :: removeAssoc t k

/-- Write an optional value: some writes the binding, none deletes it. -/
def setOpt {α β : Type} [DecidableEq α] (l : List (α × β)) (k : α) :
    Option β → List (α × β)
  | some v => setAssoc l k v
  | none => removeAssoc l k

/-- Error kinds surfaced by the embedded operations (spec section 7).
outOfFuel is an artifact of the fuel parameter of the embedded parent walk
and never occurs in the theorems below; generic carries a formatted
message, as a Go error built with fmt.Errorf does. -/
inductive Err
  | notFound
  | badRevision
  | workdirDirty (p : Path)
  | patchApplyFailed (p : Path)
  | outOfFuel
  | generic (msg : String)
deriving DecidableEq, Repr

/-- HEAD is either a symbolic reference naming another ref, or a direct
(detached) reference to a commit. -/
inductive HeadRef
  | symbolic (ref : String)
  | direct (cid : CommitID)
deriving DecidableEq, Repr

/-- A commit-ish as the checkout code distinguishes it: a branch (carrying
its full refspec, refs/heads/<name>) or a plain commit id. -/
inductive Commitish
  | branch (ref : String)
  | commitid (cid : CommitID)
deriving DecidableEq, Repr

/-- The repository state visible to the embedded commands: HEAD, the loose
ref files with their commit values, the staging index, the working tree
(path to content digest), the tree of every commit, and the commit parent
graph. -/
structure RepoState where
  headRef : HeadRef := .direct 0
  refs : List (String × CommitID) := []
  index : List (Path × Digest) := []
  workdir : List (Path × Digest) := []
  trees : List (CommitID × List (Path × Digest)) := []
  parents : List (CommitID × List CommitID) := []
deriving DecidableEq, Repr

/-- Whether the loose ref file for a name exists (models RefSpec.File(c).Exists()). -/
def refExists (st : RepoState) (name : String) : Bool :=
  (lookupAssoc st.refs name).isSome

/-- Modelled from the spec: Commitish.CommitID resolution through the
reference store (spec section 4.3); the method itself is not in the
visible slice. A branch reads its ref file (NotFound when absent), a
commit id is already resolved. -/
def resolveCommitish (st : RepoState) : Commitish → Except Err CommitID
  | .branch r =>
    match lookupAssoc st.refs r with
    | some cid => .ok cid
    | none => .error .notFound
  | .commitid cid => .ok cid

/-- The tree of a commit, empty when the commit is unknown. -/
def treeOf (st : RepoState) (cid : CommitID) : List (Path × Digest) :=
  (lookupAssoc st.trees cid).getD []

/-- Modelled from the spec: GetHeadCommit resolves HEAD through the
reference store (spec sections 4.3 and 4.5); not in the visible slice. A
direct HEAD is its own commit, a symbolic HEAD reads its target ref. -/
def GetHeadCommit (st : RepoState) : Except Err CommitID :=
  match st.headRef with
  | .direct cid => .ok cid
  | .symbolic r =>
    match lookupAssoc st.refs r with
    | some cid => .ok cid
    | none => .error .notFound

/-- Modelled from the spec: revision parsing (spec section 4.5), restricted
to the specifier forms the embedded commands exercise: HEAD, a full ref
name, and a branch name searched at refs/heads/. -/
def RevParseCommitish (st : RepoState) (s : String) : Except Err Commitish :=
  if s = "HEAD" then
    match st.headRef with
    | .direct cid => .ok (.commitid cid)
    | .symbolic r => .ok (.branch r)
  else if (lookupAssoc st.refs s).isSome then .ok (.branch s)
  else if (lookupAssoc st.refs ("refs/heads/" ++ s)).isSome then
    .ok (.branch ("refs/heads/" ++ s))
  else .error .badRevision

/-- Modelled from the spec: treeish resolution (spec section 4.5); in this
model a treeish is identified with the commit whose tree it is. -/
def RevParseTreeish (st : RepoState) (s : String) : Except Err CommitID :=
  match RevParseCommitish st s with
  | .error e => .error e
  | .ok c => resolveCommitish st c

/-- Diff status kinds of the diff engine (spec section 4.7). -/
inductive DiffStatus
  | Added | Deleted | Modified | Renamed | TypeChanged | Copied
deriving DecidableEq, Repr

/-- One record of the diff engine output: path, digest on each side, and
the change status (spec section 4.7; modes are omitted from the model). -/
structure HashDiff where
  path : Path
  dbefore : Option Digest
  dafter : Option Digest
  status : DiffStatus
deriving DecidableEq, Repr

/-- Options shared by the diff family; only forwarding matters here. -/
structure DiffCommonOptions where
  Patch : Bool := false
deriving DecidableEq, Repr

/-- Options of git diff: the common options plus the Staged selector. -/
structure DiffOptions where
  Common : DiffCommonOptions := {}
  Staged : Bool := false
deriving DecidableEq, Repr

/-- Options of diff-index: common options plus Cached. -/
structure DiffIndexOptions where
  Common : DiffCommonOptions := {}
  Cached : Bool := false
deriving DecidableEq, Repr

/-- Options of diff-files. -/
structure DiffFilesOptions where
  Common : DiffCommonOptions := {}
deriving DecidableEq, Repr

/-- The pairwise diff of two path-to-digest maps: a path present only on
the before side is Deleted, only on the after side is Added, present on
both with different digests is Modified. -/
def diffLists (bef aft : List (Path × Digest)) : List HashDiff :=
  (bef.filterMap fun e =>
    match lookupAssoc aft e.1 with
    | none => some ⟨e.1, some e.2, none, .Deleted⟩
    | some d => if d = e.2 then none else some ⟨e.1, some e.2, some d, .Modified⟩)
  ++ (aft.filterMap fun e =>
    match lookupAssoc bef e.1 with
    | none => some ⟨e.1, none, some e.2, .Added⟩
    | some _ => none)

/-- Restrict a diff to the given paths; an empty path list means no
restriction. -/
def restrict (paths : List Path) (l : List HashDiff) : List HashDiff :=
  if paths.isEmpty then l else l.filter fun d => paths.contains d.path

/-- Modelled from the spec: DiffIndex (diff-index, spec section 4.7) is not
in the visible slice, only its caller Diff is. With Cached true it is the
tree-vs-index diff for the given commit; with Cached false it compares the
tree to the working tree. -/
def DiffIndex (opts : DiffIndexOptions) (index : List (Path × Digest))
    (head : CommitID) (st : RepoState) (paths : List Path) : List HashDiff :=
  if opts.Cached then restrict paths (diffLists (treeOf st head) index)
  else restrict paths (diffLists (treeOf st head) st.workdir)

/-- Modelled from the spec: DiffFiles (diff-files, spec section 4.7) is not
in the visible slice, only its callers are. It is the worktree-vs-index
diff: the index is the before side, the working tree the after side. -/
def DiffFiles (_opts : DiffFilesOptions) (st : RepoState) (paths : List Path) :
    List HashDiff :=
  restrict paths (diffLists st.index st.workdir)

/-- Embedding of Diff (git diff) from the source: with Staged set it gets
the HEAD commit, reads the index (the source discards the read error) and
dispatches to DiffIndex with Cached true; otherwise it dispatches to
DiffFiles. The common options are forwarded either way. -/
def Diff (st : RepoState) (opt : DiffOptions) (paths : List Path) :
    Except Err (List HashDiff) :=
  if opt.Staged then
    match GetHeadCommit st with
    | .error e => .error e
    | .ok head => .ok (DiffIndex ⟨opt.Common, true⟩ st.index head st paths)
  else
    .ok (DiffFiles ⟨opt.Common⟩ st paths)

lemma diffLists_nil_right (t : List (Path × Digest)) :
    diffLists t [] = t.map fun e => ⟨e.1, some e.2, none, DiffStatus.Deleted⟩ := by
  simp only [diffLists, List.filterMap_nil, List.append_nil]
  induction t with
  | nil => rfl
  | cons e t ih =>
    simp only [List.filterMap_cons, lookupAssoc, List.map_cons]
    simp only [lookupAssoc] at ih
    rw [ih]

/-- C1: Diff with Staged set dispatches to DiffIndex with Cached true
against the HEAD commit, producing the index-vs-HEAD-tree diff, whenever
HEAD resolves; with Staged unset it dispatches to DiffFiles, producing the
worktree-vs-index diff. The Staged field alone selects the backend. -/
theorem diff_staged_dispatch (st : RepoState) (opt : DiffOptions)
    (paths : List Path) :
    (opt.Staged = true → ∀ h, GetHeadCommit st = .ok h →
      Diff st opt paths = .ok (DiffIndex ⟨opt.Common, true⟩ st.index h st paths) ∧
      Diff st opt paths = .ok (restrict paths (diffLists (treeOf st h) st.index))) ∧
    (opt.Staged = false →
      Diff st opt paths = .ok (DiffFiles ⟨opt.Common⟩ st paths) ∧
      Diff st opt paths = .ok (restrict paths (diffLists st.index st.workdir))) := by
  constructor
  · intro hs h hh
    constructor
    · simp [Diff, hs, hh]
    · simp [Diff, hs, hh, DiffIndex]
  · intro hs
    constructor
    · simp [Diff, hs]
    · simp [Diff, hs, DiffFiles]

/-- Concrete state for the C1 witness. -/
def diffDispatchW : RepoState :=
  { headRef := .direct 5, trees := [(5, [("a", 1)])], index := [("a", 1)] }

/-- Witness for C1 at a concrete state, exercising the staged branch. -/
theorem diff_staged_dispatch_witness :
    Diff diffDispatchW { Staged := true } [] =
      .ok (DiffIndex ⟨{}, true⟩ diffDispatchW.index 5 diffDispatchW []) :=
  ((diff_staged_dispatch diffDispatchW { Staged := true } []).1 rfl 5 rfl).1

/-- C5: diff with Staged set, an empty index and a non-empty HEAD tree
yields exactly one HashDiff per HEAD tree path, each with status Deleted. -/
theorem diff_staged_empty_index_all_deleted (st : RepoState) (h : CommitID)
    (t : List (Path × Digest))
    (hidx : st.index = []) (hh : GetHeadCommit st = .ok h)
    (ht : treeOf st h = t) (_hne : t ≠ []) :
    Diff st { Staged := true } [] =
      .ok (t.map fun e => ⟨e.1, some e.2, none, .Deleted⟩) ∧
    (∀ d ∈ (t.map fun e : Path × Digest =>
        (⟨e.1, some e.2, none, .Deleted⟩ : HashDiff)), d.status = .Deleted) ∧
    (t.map fun e : Path × Digest =>
        (⟨e.1, some e.2, none, .Deleted⟩ : HashDiff)).length = t.length := by
  refine ⟨?_, ?_, by simp⟩
  · simp [Diff, hh, DiffIndex, restrict, hidx, ht, diffLists_nil_right]
  · intro d hd
    simp only [List.mem_map] at hd
    obtain ⟨e, _, rfl⟩ := hd
    rfl

/-- Concrete state for the C5 witness: empty index, two files in HEAD. -/
def diffDeletedW : RepoState :=
  { headRef := .direct 7, trees := [(7, [("a", 1), ("b", 2)])], index := [] }

/-- Witness for C5: both HEAD paths are reported Deleted. -/
theorem diff_staged_empty_index_all_deleted_witness :
    Diff diffDeletedW { Staged := true } [] =
      .ok ([(("a" : Path), (1 : Digest)), ("b", 2)].map fun e =>
        ⟨e.1, some e.2, none, .Deleted⟩) :=
  (diff_staged_empty_index_all_deleted diffDeletedW 7 [("a", 1), ("b", 2)]
    rfl rfl rfl (by decide)).1

/-- Options of read-tree as the checkout code sets them. -/
structure ReadTreeOptions where
  Update : Bool := false
  Merge : Bool := false
  Reset : Bool := false
deriving DecidableEq, Repr

/-- Whether the tree walk would overwrite a locally modified copy of a
path: the two tree sides disagree there and the working-tree content
matches neither side (spec section 4.6). -/
def isDirty (o a w : List (Path × Digest)) (p : Path) : Bool :=
  lookupAssoc o p ≠ lookupAssoc a p &&
    match lookupAssoc w p with
    | none => false
    | some c => lookupAssoc o p ≠ some c && lookupAssoc a p ≠ some c

/-- The first path of the walk that the workdir-dirty check rejects. -/
def dirtyPath (o a w : List (Path × Digest)) : Option Path :=
  ((o ++ a).map fun e => e.1).find? (isDirty o a w)

/-- The working tree after a workdir-updating read-tree: every target-tree
path takes the target content, and files tracked by neither side are kept. -/
def updateWorkdir (o a w : List (Path × Digest)) : List (Path × Digest) :=
  a ++ w.filter fun e => (lookupAssoc o e.1).isNone && (lookupAssoc a e.1).isNone

/-- Modelled from the spec: ReadTree (the tree walker of spec section 4.6)
is not in the visible slice, only its callers are. The original side O is
the current index, the target side A the tree of the given commit. With
Update and Merge set (and Reset clear) a dirty working-tree file fails the
whole operation with WorkdirDirty before any mutation; with Reset set the
check is suppressed and files are overwritten unconditionally; without
Update the working tree is untouched. The new index is written in every
success case. -/
def ReadTree (opts : ReadTreeOptions) (target : CommitID) (st : RepoState) :
    Except Err (List (Path × Digest)) × RepoState :=
  match lookupAssoc st.trees target with
  | none => (.error .notFound, st)
  | some a =>
    if opts.Update && opts.Merge && !opts.Reset then
      match dirtyPath st.index a st.workdir with
      | some p => (.error (.workdirDirty p), st)
      | none =>
        (.ok a, { st with index := a, workdir := updateWorkdir st.index a st.workdir })
    else if opts.Update then
      (.ok a, { st with index := a, workdir := updateWorkdir st.index a st.workdir })
    else
      (.ok a, { st with index := a })

/-- Options of git checkout; the fields the embedded slice never reads
(Quiet, Progress, Stage, Track, and the other unimplemented ones) are
omitted. -/
structure CheckoutOptions where
  Force : Bool := false
  Branch : String := ""
  ForceBranch : Bool := false
  Detach : Bool := false
  Patch : Bool := false
deriving DecidableEq, Repr

/-- The read-tree options CheckoutCommit builds: Update and Merge, except
that Force disables Merge and enables Reset. -/
def readTreeOptsOf (opts : CheckoutOptions) : ReadTreeOptions :=
  let base : ReadTreeOptions := { Update := true, Merge := true }
  if opts.Force then { base with Merge := false, Reset := true } else base

/-- Modelled from the spec: SymbolicRefUpdate (set_symbolic of spec section
4.3) is not in the visible slice. Updating HEAD makes it a symbolic
reference to the target refspec; the reflog message is not modelled. -/
def SymbolicRefUpdate (name target : String) (st : RepoState) : RepoState :=
  if name = "HEAD" then { st with headRef := .symbolic target } else st

/-- Modelled from the spec: UpdateRef (spec section 4.3) is not in the
visible slice. With NoDeref set, updating HEAD writes HEAD itself as a
direct reference; without it a symbolic HEAD would have its target ref
updated instead. The CAS old-value check always passes in this
single-writer model and the reflog is not modelled. -/
def UpdateRef (noDeref : Bool) (name : String) (v : CommitID) (st : RepoState) :
    RepoState :=
  if name = "HEAD" then
    if noDeref then { st with headRef := .direct v }
    else
      match st.headRef with
      | .symbolic r => { st with refs := setAssoc st.refs r v }
      | .direct _ => { st with headRef := .direct v }
  else { st with refs := setAssoc st.refs name v }

/-- Embedding of CheckoutCommit from the source: the branch-exists check
for the -b and -B variety comes first; then HEAD is read for the reflog (a read that mutates
nothing and whose DetachedHead error is tolerated, so it is omitted); the
commitish is resolved; ReadTree runs with Update and Merge, or in reset
mode under Force; and only after ReadTree succeeds is HEAD updated —
symbolically for a branch without Detach, directly (NoDeref) otherwise. -/
def CheckoutCommit (opts : CheckoutOptions) (commit : Commitish)
    (st : RepoState) : Except Err Unit × RepoState :=
  if opts.Branch ≠ "" && refExists st ("refs/heads/" ++ opts.Branch)
      && !opts.ForceBranch then
    (.error (.generic ("Branch " ++ opts.Branch ++ " already exists.")), st)
  else
    match resolveCommitish st commit with
    | .error e => (.error e, st)
    | .ok cid =>
      match ReadTree (readTreeOptsOf opts) cid st with
      | (.error e, st1) => (.error e, st1)
      | (.ok _, st1) =>
        match commit with
        | .branch r =>
          if opts.Detach then (.ok (), UpdateRef true "HEAD" cid st1)
          else (.ok (), SymbolicRefUpdate "HEAD" r st1)
        | .commitid _ => (.ok (), UpdateRef true "HEAD" cid st1)

/-- Options of checkout-index as CheckoutFiles sets them. -/
structure CheckoutIndexOptions where
  Force : Bool := false
  UpdateStat : Bool := false
deriving DecidableEq, Repr

/-- Write each target entry into the working tree, later entries last. -/
def writeFiles (w targets : List (Path × Digest)) : List (Path × Digest) :=
  targets.foldl (fun acc e => setAssoc acc e.1 e.2) w

/-- Modelled from the spec: CheckoutIndexUncommited (the checkout-index
plumbing run on an in-memory index) is not in the visible slice. It writes
the named paths — all index paths when the list is empty — from the given
index to the working tree, overwriting since Force is set. -/
def CheckoutIndexUncommited (i : List (Path × Digest))
    (_opts : CheckoutIndexOptions) (files : List Path) (st : RepoState) :
    Except Err Unit × RepoState :=
  let targets := if files.isEmpty then i else i.filter fun e => files.contains e.1
  (.ok (), { st with workdir := writeFiles st.workdir targets })

/-- The read-tree options CheckoutFiles builds: Update and Merge are set
only when no explicit file list was given. -/
def checkoutFilesReadTreeOpts (files : List Path) : ReadTreeOptions :=
  { Update := files.isEmpty, Merge := files.isEmpty }

/-- Embedding of CheckoutFiles from the source: ReadTree updates the
workdir only when no files were named, and the named files are then
force-checked-out from the in-memory index ReadTree returned. -/
def CheckoutFiles (_opts : CheckoutOptions) (tree : CommitID)
    (files : List Path) (st : RepoState) : Except Err Unit × RepoState :=
  match ReadTree (checkoutFilesReadTreeOpts files) tree st with
  | (.error e, st1) => (.error e, st1)
  | (.ok i, st1) =>
    CheckoutIndexUncommited i { Force := true, UpdateStat := true } files st1

/-- A hunk of the generated patch, one per differing file in this model:
the path and its content digest on each side. -/
structure Hunk where
  path : Path
  dbefore : Option Digest
  dafter : Option Digest
deriving DecidableEq, Repr

/-- The outcome of the external hunk-filtering collaborator (filterHunks):
the surviving hunks, a user abort, or a failure. -/
inductive FilterResult
  | selected (hs : List Hunk)
  | aborted
  | failed (e : Err)
deriving DecidableEq, Repr

/-- Modelled from the spec: GeneratePatch followed by splitPatch (spec
sections 4.7 and 4.8), neither in the visible slice: the unified patch of
the given diffs split into per-file hunks, one hunk per differing file. -/
def hunksOfDiffs (ds : List HashDiff) : List Hunk :=
  ds.map fun d => ⟨d.path, d.dbefore, d.dafter⟩

/-- Reverse-apply one hunk: the file must currently hold the after side
(zero fuzz), and is rewritten to the before side. -/
def applyHunkReverse (st : RepoState) (h : Hunk) : Except Err RepoState :=
  if lookupAssoc st.workdir h.path = h.dafter then
    .ok { st with workdir := setOpt st.workdir h.path h.dbefore }
  else .error (.patchApplyFailed h.path)

/-- Forward-apply one hunk: the file must currently hold the before side,
and is rewritten to the after side. -/
def applyHunkForward (st : RepoState) (h : Hunk) : Except Err RepoState :=
  if lookupAssoc st.workdir h.path = h.dbefore then
    .ok { st with workdir := setOpt st.workdir h.path h.dafter }
  else .error (.patchApplyFailed h.path)

/-- Modelled from the spec: Apply (patch apply, spec section 4.8) is not in
the visible slice. Hunks are applied in order, forward or in reverse; an
empty hunk list performs no writes; a context mismatch fails with
PatchApplyFailed naming the file. -/
def Apply (reverse : Bool) : List Hunk → RepoState → Except Err Unit × RepoState
  | [], st => (.ok (), st)
  | h :: hs, st =>
    match (if reverse then applyHunkReverse st h else applyHunkForward st h) with
    | .error e => (.error e, st)
    | .ok st1 => Apply reverse hs st1

/-- Embedding of Checkout from the source. An empty thing means HEAD. In
patch mode: diff the worktree against the index, split the patch into
hunks, hand them to the external collaborator; a user abort returns
success untouched, otherwise the surviving hunks are written to a
temporary patch outside the repository and applied in reverse. Otherwise
the call dispatches on whether files were named: CheckoutCommit for a bare
commitish, CheckoutFiles for a treeish with paths. -/
def Checkout (collab : List Hunk → FilterResult) (opts : CheckoutOptions)
    (thing : String) (files : List Path) (st : RepoState) :
    Except Err Unit × RepoState :=
  let thing := if thing = "" then "HEAD" else thing
  if opts.Patch then
    let diffs := DiffFiles {} st files
    match collab (hunksOfDiffs diffs) with
    | .aborted => (.ok (), st)
    | .failed e => (.error e, st)
    | .selected hs => Apply true hs st
  else if files.isEmpty then
    match RevParseCommitish st thing with
    | .error e => (.error e, st)
    | .ok cmt => CheckoutCommit opts cmt st
  else
    match RevParseTreeish st thing with
    | .error e => (.error e, st)
    | .ok tr => CheckoutFiles opts tr files st

lemma mem_keys_of_lookupAssoc_eq_some {α β : Type} [DecidableEq α]
    {l : List (α × β)} {k : α} {v : β} (h : lookupAssoc l k = some v) :
    k ∈ l.map fun e => e.1 := by
  induction l with
  | nil => simp [lookupAssoc] at h
  | cons e t ih =>
    by_cases he : e.1 = k
    · simp [he]
    · simp only [lookupAssoc, he, if_false] at h
      simp [ih h]

lemma mem_unionKeys_of_lookupAssoc_ne {α β : Type} [DecidableEq α]
    (o a : List (α × β)) (p : α) (h : lookupAssoc o p ≠ lookupAssoc a p) :
    p ∈ (o ++ a).map fun e => e.1 := by
  rw [List.map_append, List.mem_append]
  cases ho : lookupAssoc o p with
  | some v => exact Or.inl (mem_keys_of_lookupAssoc_eq_some ho)
  | none =>
    cases ha : lookupAssoc a p with
    | some v => exact Or.inr (mem_keys_of_lookupAssoc_eq_some ha)
    | none => exact absurd (ho.trans ha.symm) h

lemma find?_eq_some_of_unique {α : Type} (pr : α → Bool) (l : List α) (p : α)
    (hmem : p ∈ l) (hp : pr p = true)
    (huniq : ∀ q ∈ l, pr q = true → q = p) :
    l.find? pr = some p := by
  induction l with
  | nil => cases hmem
  | cons x xs ih =>
    by_cases hx : pr x = true
    · have hxp : x = p := huniq x (by simp) hx
      rw [List.find?_cons_of_pos _ hx, hxp]
    · have hxp : x ≠ p := fun he => hx (he ▸ hp)
      have hmem2 : p ∈ xs := by
        rcases List.mem_cons.mp hmem with h1 | h1
        · exact absurd h1.symm hxp
        · exact h1
      rw [List.find?_cons_of_neg _ (by simp [hx])]
      exact ih hmem2 fun q hq hprq => huniq q (List.mem_cons_of_mem _ hq) hprq

lemma lookupAssoc_setAssoc_ne {α β : Type} [DecidableEq α]
    (l : List (α × β)) (k : α) (v : β) (p : α) (h : k ≠ p) :
    lookupAssoc (setAssoc l k v) p = lookupAssoc l p := by
  induction l with
  | nil => simp [setAssoc, lookupAssoc, h]
  | cons e t ih =>
    by_cases he : e.1 = k
    · have hep : ¬ (e.1 = p) := fun hc => h (he ▸ hc ▸ rfl)
      simp [setAssoc, he, lookupAssoc, h, hep]
    · by_cases hep : e.1 = p
      · have hpk : ¬ (p = k) := fun hc => h hc.symm
        simp [setAssoc, he, lookupAssoc, hep, hpk]
      · simp [setAssoc, he, lookupAssoc, hep, ih]

lemma lookupAssoc_writeFiles_of_not_key (w : List (Path × Digest))
    (ts : List (Path × Digest)) (p : Path) (h : ∀ e ∈ ts, e.1 ≠ p) :
    lookupAssoc (writeFiles w ts) p = lookupAssoc w p := by
  induction ts generalizing w with
  | nil => rfl
  | cons e t ih =>
    have he : e.1 ≠ p := h e (by simp)
    have step : writeFiles w (e :: t) = writeFiles (setAssoc w e.1 e.2) t := rfl
    rw [step, ih _ fun x hx => h x (List.mem_cons_of_mem _ hx),
      lookupAssoc_setAssoc_ne _ _ _ _ he]

/-- C2: checking out a branch whose target tree differs from the current
index state at exactly one path, while the working copy of that path is
locally modified and matches neither side, fails with WorkdirDirty naming
that path and leaves the whole repository state (HEAD, index, workdir,
refs) unchanged; in particular HEAD is not updated, since the ref update
runs only after ReadTree succeeds. -/
theorem checkout_workdir_dirty_no_mutation (opts : CheckoutOptions)
    (st : RepoState) (r : String) (cid : CommitID)
    (a : List (Path × Digest)) (p : Path) (w0 : Digest)
    (hB : opts.Branch = "") (hF : opts.Force = false)
    (href : lookupAssoc st.refs r = some cid)
    (htree : lookupAssoc st.trees cid = some a)
    (hdiff : lookupAssoc st.index p ≠ lookupAssoc a p)
    (honly : ∀ q, q ≠ p → lookupAssoc st.index q = lookupAssoc a q)
    (hw : lookupAssoc st.workdir p = some w0)
    (hwo : lookupAssoc st.index p ≠ some w0)
    (hwa : lookupAssoc a p ≠ some w0) :
    CheckoutCommit opts (.branch r) st = (.error (.workdirDirty p), st) := by
  have hdirty : isDirty st.index a st.workdir p = true := by
    simp [isDirty, hw, hdiff, hwo, hwa]
  have huniq : ∀ q ∈ (st.index ++ a).map fun e => e.1,
      isDirty st.index a st.workdir q = true → q = p := by
    intro q _ hdq
    by_contra hne
    have heq := honly q hne
    simp [isDirty, heq] at hdq
  have hdp : dirtyPath st.index a st.workdir = some p :=
    find?_eq_some_of_unique _ _ _
      (mem_unionKeys_of_lookupAssoc_ne _ _ _ hdiff) hdirty huniq
  simp [CheckoutCommit, hB, resolveCommitish, href, readTreeOptsOf, hF,
    ReadTree, htree, hdp]

/-- Concrete state for the C2 witness: index has f at digest 1, the target
tree has f at digest 2, the working copy holds digest 3. -/
def dirtyW : RepoState :=
  { refs := [("refs/heads/b", 1)], trees := [(1, [("f", 2)])],
    index := [("f", 1)], workdir := [("f", 3)] }

/-- Witness for C2: the dirty checkout fails and the state is unchanged. -/
theorem checkout_workdir_dirty_no_mutation_witness :
    CheckoutCommit {} (.branch "refs/heads/b") dirtyW =
      (.error (.workdirDirty "f"), dirtyW) :=
  checkout_workdir_dirty_no_mutation {} dirtyW "refs/heads/b" 1 [("f", 2)] "f" 3
    rfl rfl rfl rfl (by decide)
    (fun q hq => by
      have h : ¬ ("f" = q) := fun h => hq h.symm
      simp [dirtyW, lookupAssoc, h])
    rfl (by decide) (by decide)

/-- C9: when the Branch option names a branch whose ref file already
exists and ForceBranch is not set, CheckoutCommit fails with the message
Branch name already exists, for any commitish, with the state (HEAD,
index, workdir, refs) unchanged — no tree is read. -/
theorem checkout_branch_exists_error (opts : CheckoutOptions)
    (commit : Commitish) (st : RepoState)
    (hB : opts.Branch ≠ "")
    (hex : refExists st ("refs/heads/" ++ opts.Branch) = true)
    (hFB : opts.ForceBranch = false) :
    CheckoutCommit opts commit st =
      (.error (.generic ("Branch " ++ opts.Branch ++ " already exists.")), st) := by
  simp [CheckoutCommit, hB, hex, hFB]

/-- Concrete state for the C9 witness. -/
def branchExistsW : RepoState := { refs := [("refs/heads/b", 1)] }

/-- Witness for C9 at a concrete state and options. -/
theorem checkout_branch_exists_error_witness :
    CheckoutCommit { Branch := "b" } (.commitid 0) branchExistsW =
      (.error (.generic "Branch b already exists."), branchExistsW) :=
  checkout_branch_exists_error { Branch := "b" } (.commitid 0) branchExistsW
    (by decide) rfl rfl

/-- C4: after a successful ReadTree, CheckoutCommit on a branch without
Detach updates HEAD as a symbolic reference to refs/heads/(branch), while
a non-branch commitish updates HEAD as a direct (detached) reference to
the commit digest, leaving the underlying ref files untouched (NoDeref). -/
theorem checkout_head_update_modes (opts : CheckoutOptions)
    (st st1 : RepoState) (n : String) (cid : CommitID)
    (i : List (Path × Digest))
    (hB : opts.Branch = "")
    (href : lookupAssoc st.refs ("refs/heads/" ++ n) = some cid)
    (hrt : ReadTree (readTreeOptsOf opts) cid st = (.ok i, st1)) :
    (opts.Detach = false →
      CheckoutCommit opts (.branch ("refs/heads/" ++ n)) st =
        (.ok (), { st1 with headRef := .symbolic ("refs/heads/" ++ n) })) ∧
    (CheckoutCommit opts (.commitid cid) st =
        (.ok (), { st1 with headRef := .direct cid }) ∧
      ({ st1 with headRef := HeadRef.direct cid }).refs = st1.refs) := by
  refine ⟨?_, ?_, rfl⟩
  · intro hD
    simp [CheckoutCommit, hB, resolveCommitish, href, hrt, hD,
      SymbolicRefUpdate]
  · simp [CheckoutCommit, hB, resolveCommitish, hrt, UpdateRef]

/-- Concrete state for the C4 witness: one branch m at commit 3 whose tree
is empty, so ReadTree leaves the empty state unchanged. -/
def headModeW : RepoState := { refs := [("refs/heads/m", 3)], trees := [(3, [])] }

/-- Witness for C4: checking out branch m makes HEAD symbolic. -/
theorem checkout_head_update_modes_witness :
    CheckoutCommit {} (.branch "refs/heads/m") headModeW =
      (.ok (), { headModeW with headRef := .symbolic "refs/heads/m" }) :=
  (checkout_head_update_modes {} headModeW headModeW "m" 3 [] rfl rfl rfl).1 rfl

/-- C7: with Force, CheckoutCommit builds read-tree options in reset mode
(Update on, Merge off, Reset on), under which ReadTree never performs the
workdir-dirty check and overwrites the working tree with the target tree
unconditionally; without Force the options are Update and Merge (Reset
off), under which any path that differs between the two sides while the
working copy matches neither makes ReadTree fail WorkdirDirty. -/
theorem checkout_force_reset_readtree (opts : CheckoutOptions)
    (cid : CommitID) (st : RepoState) (a : List (Path × Digest))
    (htree : lookupAssoc st.trees cid = some a) :
    (opts.Force = true →
      readTreeOptsOf opts = { Update := true, Merge := false, Reset := true } ∧
      ReadTree (readTreeOptsOf opts) cid st =
        (.ok a, { st with
                  index := a
                  workdir := updateWorkdir st.index a st.workdir })) ∧
    (opts.Force = false →
      readTreeOptsOf opts = { Update := true, Merge := true, Reset := false } ∧
      ∀ p w0, lookupAssoc st.index p ≠ lookupAssoc a p →
        lookupAssoc st.workdir p = some w0 →
        lookupAssoc st.index p ≠ some w0 → lookupAssoc a p ≠ some w0 →
        ∃ q, (ReadTree (readTreeOptsOf opts) cid st).1 =
          .error (.workdirDirty q)) := by
  constructor
  · intro hF
    refine ⟨by simp [readTreeOptsOf, hF], ?_⟩
    simp [readTreeOptsOf, hF, ReadTree, htree]
  · intro hF
    refine ⟨by simp [readTreeOptsOf, hF], ?_⟩
    intro p w0 hdiff hw hwo hwa
    have hdirty : isDirty st.index a st.workdir p = true := by
      simp [isDirty, hw, hdiff, hwo, hwa]
    have hsome : (dirtyPath st.index a st.workdir).isSome := by
      rw [dirtyPath, List.find?_isSome]
      exact ⟨p, mem_unionKeys_of_lookupAssoc_ne _ _ _ hdiff, hdirty⟩
    obtain ⟨q, hq⟩ := Option.isSome_iff_exists.mp hsome
    refine ⟨q, ?_⟩
    simp [readTreeOptsOf, hF, ReadTree, htree, hq]

/-- Concrete state for the C7 witness: a dirty working copy of f that the
forced checkout overwrites anyway. -/
def forceW : RepoState :=
  { trees := [(4, [("f", 9)])], index := [("f", 1)], workdir := [("f", 5)] }

/-- Witness for C7: with Force the read-tree runs in reset mode and
succeeds on the dirty state. -/
theorem checkout_force_reset_readtree_witness :
    readTreeOptsOf { Force := true } =
      { Update := true, Merge := false, Reset := true } ∧
    ReadTree (readTreeOptsOf { Force := true }) 4 forceW =
      (.ok [("f", 9)], { forceW with
        index := [("f", 9)]
        workdir := updateWorkdir forceW.index [("f", 9)] forceW.workdir }) :=
  (checkout_force_reset_readtree { Force := true } 4 forceW [("f", 9)] rfl).1 rfl

/-- C10: CheckoutFiles with a non-empty path list builds read-tree options
with Update and Merge both off (no whole-workdir update) and then
force-checks-out only the named files, so every working-tree path outside
the list keeps its original content. -/
theorem checkout_files_frame (opts : CheckoutOptions) (tree : CommitID)
    (files : List Path) (st : RepoState) (p : Path)
    (hne : files ≠ []) (hp : files.contains p = false) :
    checkoutFilesReadTreeOpts files =
      { Update := false, Merge := false, Reset := false } ∧
    lookupAssoc (CheckoutFiles opts tree files st).2.workdir p =
      lookupAssoc st.workdir p := by
  have hempty : files.isEmpty = false := by
    cases files with
    | nil => exact absurd rfl hne
    | cons f fs => rfl
  refine ⟨by simp [checkoutFilesReadTreeOpts, hempty], ?_⟩
  unfold CheckoutFiles
  cases htr : lookupAssoc st.trees tree with
  | none => simp [ReadTree, htr]
  | some a =>
    simp [ReadTree, htr, checkoutFilesReadTreeOpts, hempty,
      CheckoutIndexUncommited]
    rw [lookupAssoc_writeFiles_of_not_key]
    intro e he hep
    have hc : e.1 ∈ files := by simpa using List.of_mem_filter he
    rw [hep] at hc
    have hpf : p ∉ files := by simpa using hp
    exact hpf hc

/-- Concrete state for the C10 witness. -/
def framesW : RepoState :=
  { trees := [(1, [("x", 1), ("y", 2)])], workdir := [("y", 9), ("z", 3)] }

/-- Witness for C10: checking out only x leaves y untouched. -/
theorem checkout_files_frame_witness :
    lookupAssoc (CheckoutFiles {} 1 ["x"] framesW).2.workdir "y" =
      lookupAssoc framesW.workdir "y" :=
  (checkout_files_frame {} 1 ["x"] framesW "y" (by decide) (by decide)).2

/-- C6: in patch mode, when the external hunk-filtering collaborator
signals a user abort or returns an empty hunk list, Checkout returns
success with the repository state — in particular every working-tree file
— unchanged; the abort is never surfaced as an error. -/
theorem checkout_patch_empty_or_abort_noop (collab : List Hunk → FilterResult)
    (opts : CheckoutOptions) (thing : String) (files : List Path)
    (st : RepoState) (hP : opts.Patch = true) :
    (collab (hunksOfDiffs (DiffFiles {} st files)) = .aborted →
      Checkout collab opts thing files st = (.ok (), st)) ∧
    (collab (hunksOfDiffs (DiffFiles {} st files)) = .selected [] →
      Checkout collab opts thing files st = (.ok (), st)) := by
  constructor <;> intro hc <;> simp [Checkout, hP, hc, Apply]

/-- Witness for C6: an always-aborting collaborator leaves the empty state
unchanged and exits successfully. -/
theorem checkout_patch_empty_or_abort_noop_witness :
    Checkout (fun _ => .aborted) { Patch := true } "" [] {} = (.ok (), {}) :=
  (checkout_patch_empty_or_abort_noop (fun _ => .aborted) { Patch := true }
    "" [] {} rfl).1 rfl

/-- One pass of the parent loop inside walkParents: each parent not yet in
the visited set is walked, in order, through the given recursive visitor,
threading the visited set and concatenating the printed commits. -/
def loopParents
    (visit : CommitID → List CommitID → Except Err (List CommitID × List CommitID)) :
    List CommitID → List CommitID → Except Err (List CommitID × List CommitID)
  | [], v => .ok (v, [])
  | p :: ps, v =>
    if v.contains p then loopParents visit ps v
    else
      match visit p v with
      | .error e => .error e
      | .ok (v1, out1) =>
        match loopParents visit ps v1 with
        | .error e => .error e
        | .ok (v2, out2) => .ok (v2, out1 ++ out2)

/-- Embedding of walkParents from the source, with the process-global
visited map passed explicitly and the printed commits collected in a list.
The fuel argument only bounds the recursion depth of the shallow
embedding; the theorems below exhibit runs that finish with fuel to spare,
never returning outOfFuel. An already-visited commit prints nothing;
otherwise it is marked visited, printed, its parents are looked up
(NotFound when the commit is absent from the store), and every
not-yet-visited parent is walked in order. -/
def walkParents (g : List (CommitID × List CommitID)) :
    Nat → CommitID → List CommitID → Except Err (List CommitID × List CommitID)
  | 0, _, _ => .error .outOfFuel
  | fuel + 1, cmt, v =>
    if v.contains cmt then .ok (v, [])
    else
      match lookupAssoc g cmt with
      | none => .error .notFound
      | some ps =>
        match loopParents (walkParents g fuel) ps (cmt :: v) with
        | .error e => .error e
        | .ok (v1, out) => .ok (v1, cmt :: out)

/-- The observable outcome of the log command: a usage diagnostic plus
process exit with the given code, an engine failure, or success. -/
inductive LogOutcome
  | usageExit (code : Nat)
  | failure (e : Err)
  | success
deriving DecidableEq, Repr

/-- Embedding of Log (git log) from the source, after external flag
parsing: args are the non-flag arguments. More than one argument prints a
usage diagnostic and exits with code 2 before any commit is resolved or
walked. Otherwise the sole argument (HEAD when absent) is rev-parsed to a
commitish, resolved to a commit id, the visited set is reset to empty, and
walkParents runs from it; the second component is the list of commits
printed, in order. The embedded walk receives one more unit of fuel than
the repository has commits. -/
def Log (st : RepoState) (args : List String) : LogOutcome × List CommitID :=
  if args.length > 1 then (.usageExit 2, [])
  else
    match RevParseCommitish st (args.headD "HEAD") with
    | .error e => (.failure e, [])
    | .ok c =>
      match resolveCommitish st c with
      | .error e => (.failure e, [])
      | .ok cmt =>
        match walkParents st.parents (st.parents.length + 1) cmt [] with
        | .error e => (.failure e, [])
        | .ok (_, printed) => (.success, printed)

/-- Two commits with a linear parent link: commit 2's sole parent is
commit 1, and branch b2 points at commit 2. -/
def linearRepo : RepoState :=
  { refs := [("refs/heads/b2", 2)], parents := [(2, [1]), (1, [])] }

/-- The same two commits with an erroneous parent pointer: commit 1 lists
the later commit 2 as its parent, closing a cycle. -/
def backPointerRepo : RepoState :=
  { refs := [("refs/heads/b2", 2)], parents := [(2, [1]), (1, [2])] }

/-- C3: logging commit 2, whose sole parent is commit 1, prints 2 then 1,
each exactly once; with an erroneous parent pointer from commit 1 back to
the already-visited commit 2 the visited-set cycle detection makes the
walk print the same duplicate-free list and still terminate successfully,
finishing within its fuel instead of running out. -/
theorem log_linear_and_cycle_detection :
    Log linearRepo ["b2"] = (.success, [2, 1]) ∧
    Log backPointerRepo ["b2"] = (.success, [2, 1]) ∧
    ([2, 1] : List CommitID).Nodup := by decide

/-- C8: the log command with two or more non-flag arguments walks no
commits: it prints a usage diagnostic and exits with the non-zero code 2,
the list of printed commits being empty, for every state and arguments. -/
theorem log_paths_usage_exit (st : RepoState) (args : List String)
    (h : 2 ≤ args.length) :
    Log st args = (.usageExit 2, []) ∧ (2 : Nat) ≠ 0 := by
  have h1 : args.length > 1 := h
  exact ⟨by simp [Log, h1], by decide⟩

/-- Witness for C8 with two path arguments. -/
theorem log_paths_usage_exit_witness :
    Log {} ["a", "b"] = (.usageExit 2, []) ∧ (2 : Nat) ≠ 0 :=
  log_paths_usage_exit {} ["a", "b"] (by decide)

end DGit
